import Mathlib

/-!
Verification of the AT command/response layer of the nrf_modem_updater
repository: a shallow embedding of `at_parser.py` (parser registry, rule
engine, report assembly) and `rtt_terminal.py` (framing, line assembly,
query correlation, batch execution), with theorems settling the frozen
claims about them.

Python's dynamically-typed values are modelled by the closed sums `Scalar`
and `Value` below, which cover every value the embedded code produces or
consumes; machine text is modelled as Lean `String`/`List Char` (the wire
protocol is ASCII, and the byte `0x0A` the line assembler splits on never
occurs inside a multi-byte UTF-8 sequence, so char-level splitting agrees
with byte-level splitting).
-/

set_option maxHeartbeats 1000000

namespace NrfModem

/-- A scalar Python value as it appears inside record-typed parse results
(`dict` entries produced by `_parse_xmonitor` are ints or `None`). -/
inductive Scalar
  | intS (n : Int)
  | strS (s : String)
  | noneS
  deriving DecidableEq

/-- A Python value flowing through the rule engine: an int, a string,
`None`, or a flat dict of scalars (the record-typed parse results). -/
inductive Value
  | intV (n : Int)
  | strV (s : String)
  | noneV
  | dictV (fs : List (String × Scalar))
  deriving DecidableEq

/-- Association-list lookup, modelling Python `dict` access (`d.get(k)`);
our embedded dicts keep one entry per key, first match wins. -/
def alookup {A : Type} (k : String) : List (String × A) → Option A
  | [] => none
  | (k', v) :: rest => if k' = k then some v else alookup k rest

/-- Python `d[k] = v` on an assoc-list dict: overwrite in place if the key
exists (keeping its position), otherwise append at the end. -/
def dictInsert {A : Type} (m : List (String × A)) (k : String) (v : A) :
    List (String × A) :=
  if (alookup k m).isSome then
    m.map (fun p => if p.1 = k then (k, v) else p)
  else m ++ [(k, v)]

/-- Python `str()` of a scalar. -/
def scalarStr : Scalar → String
  | .intS n => toString n
  | .strS s => s
  | .noneS => "None"

/-- Python `repr()` of a scalar (strings get quoted). -/
def scalarRepr : Scalar → String
  | .intS n => toString n
  | .strS s => "'" ++ s ++ "'"
  | .noneS => "None"

/-- Python `str()`/`repr()` of a dict, e.g. `{'a': 1}`. -/
def dictStr (fs : List (String × Scalar)) : String :=
  "\x7b" ++
    String.intercalate ", " (fs.map (fun p => "'" ++ p.1 ++ "': " ++ scalarRepr p.2)) ++
    "\x7d"

/-- Python `str()` of a `Value` (used by the `f"... {v} ..."` reasons). -/
def pyStr : Value → String
  | .intV n => toString n
  | .strV s => s
  | .noneV => "None"
  | .dictV fs => dictStr fs

/-- Python `repr()` of a `Value` (used by the `f"... {v!r} ..."` reasons). -/
def pyRepr : Value → String
  | .intV n => toString n
  | .strV s => "'" ++ s ++ "'"
  | .noneV => "None"
  | .dictV fs => dictStr fs

/-- Python `str()` of a list of scalars, e.g. `[1, 2]` (list display uses
`repr` of the elements). -/
def listRepr (xs : List Scalar) : String :=
  "[" ++ String.intercalate ", " (xs.map scalarRepr) ++ "]"

/-- Embed a scalar extracted from a record back into `Value`. -/
def Scalar.toValue : Scalar → Value
  | .intS n => .intV n
  | .strS s => .strV s
  | .noneS => .noneV

/-- One validation rule: the loosely-typed dict `{field?, equals?,
allowed?, min?, max?}` of `at_parser.py`; `none` means the key is absent.
Bounds are numeric, as in every rule the program consumes. -/
structure Rule where
  field : Option String := none
  equals : Option Scalar := none
  allowed : Option (List Scalar) := none
  min : Option Int := none
  max : Option Int := none
  deriving DecidableEq

/-- Python truthiness of the `field` entry: `rule.get("field")` is used as
`if ... and field`, so an absent key and an empty string both disable
sub-field extraction. -/
def effField : Option String → Option String
  | some s => if s = "" then none else some s
  | none => none

/-- Python `==` between a value and a scalar: equal only when of the same
type and equal there (heterogeneous comparisons are `False`, no error). -/
def pyEqVS : Value → Scalar → Bool
  | .intV a, .intS b => a == b
  | .strV a, .strS b => a == b
  | .noneV, .noneS => true
  | _, _ => false

/-- The chained comparison `lo <= v <= hi` of `_apply_rules`, with Python's
semantics: absent bounds default to `float('-inf')`/`float('inf')`, and a
`TypeError` (comparing a non-number against a numeric bound) is caught and
counts as `False`. -/
def rangeOk (lo hi : Option Int) : Value → Bool
  | .intV n =>
    (match lo with | none => true | some l => decide (l ≤ n)) &&
    (match hi with | none => true | some h => decide (n ≤ h))
  | _ => false

/-- Render a bound for the range-failure reason: `str()` of the int, or
the textual form of the float infinity default. -/
def bndStr (b : Option Int) (dflt : String) : String :=
  match b with
  | some n => toString n
  | none => dflt

/-- The inner `ok(rule)` closure of `_apply_rules` (at_parser.py lines
113-139): resolve an optional sub-field, fail with a "missing" reason when
the resolved value is `None`, then apply exactly one of the equality,
set-membership, or range comparisons. The second component is the reason
appended to the shared `reasons` list (`none` when the rule passes: a
passing branch never appends). -/
def ruleOk (val : Value) (rule : Rule) : Bool × Option String :=
  let fld := effField rule.field
  let v : Value :=
    match val, fld with
    | .dictV fs, some f =>
        (match alookup f fs with
         | some s => s.toValue
         | none => .noneV)
    | _, _ => val
  let nm := fld.getD "value"
  if v = .noneV then
    (false, some (nm ++ " missing"))
  else
    match rule.equals with
    | some e =>
      if pyEqVS v e then (true, none)
      else (false, some (nm ++ " ≠ " ++ scalarRepr e ++ " (got " ++ pyRepr v ++ ")"))
    | none =>
      match rule.allowed with
      | some xs =>
        if xs.any (pyEqVS v) then (true, none)
        else (false, some (pyRepr v ++ " not in " ++ listRepr xs))
      | none =>
        if rangeOk rule.min rule.max v then (true, none)
        else (false, some (nm ++ " " ++ pyStr v ++ " outside [" ++
                             bndStr rule.min "-inf" ++ "–" ++ bndStr rule.max "inf" ++ "]"))

/-- The evaluation loop of `_apply_rules`: `all(ok(r) for r in rules)` with
the shared `reasons` accumulator. Python's `all` consumes the generator
lazily, so evaluation stops at the first failing rule and only that rule's
reason has been appended. -/
def applyRulesGo (val : Value) : List Rule → Bool × List String
  | [] => (true, [])
  | r :: rs =>
    match ruleOk val r with
    | (true, _) => applyRulesGo val rs
    | (false, reason) => (false, reason.toList)

/-- `_apply_rules(val, rules)` of at_parser.py: overall pass/fail plus the
accumulated human-readable reasons. -/
def _apply_rules (val : Value) (rules : List Rule) : Bool × List String :=
  applyRulesGo val rules

/-- The `Parsed` dataclass of at_parser.py: a typed value plus a
human-readable description. -/
structure Parsed where
  value : Value
  description : String

/-- The type of a registered parser function: `(reply, status) ->
(Parsed, default_pass)`. -/
def PyParser := String → Option String → Parsed × Bool

/-- Python `status or "OK"`: `None` and the empty string are falsy. -/
def statusOr (status : Option String) : String :=
  match status with
  | none => "OK"
  | some s => if s = "" then "OK" else s

/-- `_pass_if_ok` of at_parser.py: the fallback parser. Value is the raw
reply; description is the reply unless it is empty (`reply or "(no
reply)"`); default pass is `(status or "OK") == "OK"`. -/
def _pass_if_ok (reply : String) (status : Option String) : Parsed × Bool :=
  (⟨.strV reply, if reply = "" then "(no reply)" else reply⟩,
   decide (statusOr status = "OK"))

/-- Drop a literal pattern from the head of the input, or fail. -/
def dropLit : List Char → List Char → Option (List Char)
  | [], l => some l
  | _ :: _, [] => none
  | p :: ps, c :: cs => if p = c then dropLit ps cs else none

/-- Whitespace as matched by the regex class `\s` (ASCII range). -/
def reWS (c : Char) : Bool :=
  c = ' ' || c = '\t' || c = '\n' || c = '\r' || c = '\x0b' || c = '\x0c'

/-- Numeric value of a run of decimal digits. -/
def digitsToNat (ds : List Char) : Nat :=
  ds.foldl (fun acc c => acc * 10 + (c.toNat - '0'.toNat)) 0

/-- Try the regex `%XVBAT:\s*(\d+)` anchored at the head of the input:
literal `%XVBAT:`, then a maximal whitespace run, then at least one digit
(the greedy `\s*` never needs backtracking here, because giving back a
whitespace character can never satisfy `\d`). -/
def matchXvbatAt (l : List Char) : Option Nat :=
  match dropLit "%XVBAT:".data l with
  | none => none
  | some rest =>
    let ds := (rest.dropWhile reWS).takeWhile Char.isDigit
    if ds.isEmpty then none else some (digitsToNat ds)

/-- `re.search` of the pattern `%XVBAT:\s*(\d+)`: first match over all
start positions, scanning left to right. -/
def xvbatSearch : List Char → Option Nat
  | [] => none
  | c :: cs =>
    match matchXvbatAt (c :: cs) with
    | some v => some v
    | none => xvbatSearch cs

/-- Two-digit zero-padded rendering of a number below 100. -/
def fmt2 (n : Nat) : String :=
  (if n < 10 then "0" else "") ++ toString n

/-- The description `f"{mv/1000:.2f} V"` of `_parse_xvbat`, modelled as
exact decimal rounding (round half to even) of `mv/1000` to two decimal
places; binary floating-point formatting can differ from this only on
exact-half inputs, and no claim depends on this string. -/
def voltDesc (mv : Nat) : String :=
  let q := mv / 10
  let r := mv % 10
  let c := if r > 5 then q + 1 else if r < 5 then q else if q % 2 = 0 then q else q + 1
  toString (c / 100) ++ "." ++ fmt2 (c % 100) ++ " V"

/-- `_parse_xvbat` of at_parser.py (the "System Voltage" parser): extract
the millivolt reading after `%XVBAT:`, report it in volts, default pass
iff `3300 <= mv <= 5500`; an unmatched reply is "unparseable" with default
fail. -/
def _parse_xvbat (r : String) (_s : Option String) : Parsed × Bool :=
  match xvbatSearch r.data with
  | none => (⟨.strV r, "unparseable"⟩, false)
  | some mv => (⟨.intV (mv : Int), voltDesc mv⟩, decide (3300 ≤ mv ∧ mv ≤ 5500))

/-- The module-level parser registry of at_parser.py: `PARSER_REGISTRY`
and `NAME_REGISTRY`, as one value threaded explicitly. -/
structure Registry where
  parsers : List (String × PyParser)
  names : List (String × String)

/-- `register_parser` of at_parser.py: raise `ValueError` when the command
already has a parser and `override` is false (before any store, so the
registries are untouched); otherwise store the parser and display name. -/
def registerParser (reg : Registry) (cmd : String) (parser : PyParser)
    (name : String) (override : Bool) : Except String Registry :=
  if !override && (alookup cmd reg.parsers).isSome then
    .error ("Parser for " ++ cmd ++ " already exists- use override=True")
  else
    .ok ⟨dictInsert reg.parsers cmd parser, dictInsert reg.names cmd name⟩

/-- A value of the `limits` mapping: a single rule dict or a list of rule
dicts (`parse` wraps a single dict into a one-element list). -/
inductive RuleSpec
  | one (r : Rule)
  | many (rs : List Rule)
  deriving DecidableEq

/-- The `if isinstance(rules, dict): rules = [rules]` normalization. -/
def specRules : RuleSpec → List Rule
  | .one r => [r]
  | .many rs => rs

/-- The rules `parse` applies to a result name:
`limits.get(name, [])`, normalized. -/
def rulesFor (limits : List (String × RuleSpec)) (nm : String) : List Rule :=
  match alookup nm limits with
  | none => []
  | some sp => specRules sp

/-- `PARSER_REGISTRY.get(cmd, _pass_if_ok)`: registry lookup with the
fallback parser as default. -/
def registryParser (reg : Registry) (cmd : String) : PyParser :=
  (alookup cmd reg.parsers).getD _pass_if_ok

/-- `NAME_REGISTRY.get(cmd, cmd)`: the display name, defaulting to the
command itself. -/
def registryName (reg : Registry) (cmd : String) : String :=
  (alookup cmd reg.names).getD cmd

/-- The `TestResult` dataclass of at_parser.py (inside `parse` the
`parsed` member is always set). -/
structure TestResult where
  command : String
  name : String
  parsed : Parsed
  status : Option String
  passed : Bool
  reasons : List String

/-- The body of the per-command loop of `parse` (at_parser.py lines
322-333): look up the parser (fallback `_pass_if_ok`), run it, fetch and
normalize the declared rules, evaluate them when there are any, and
conjoin the rule verdict with the parser's default verdict
(`passed = passed and default_ok if rules else default_ok`). -/
def parseEntry (reg : Registry) (limits : List (String × RuleSpec))
    (cmd reply : String) (status : Option String) : TestResult :=
  let pr := registryParser reg cmd reply status
  let parsed := pr.1
  let default_ok := pr.2
  let nm := registryName reg cmd
  let rules := rulesFor limits nm
  let pw := if rules.isEmpty then (default_ok, []) else _apply_rules parsed.value rules
  let passed := if rules.isEmpty then default_ok else pw.1 && default_ok
  ⟨cmd, nm, parsed, status, passed, pw.2⟩

/-- `parse` of at_parser.py: one `TestResult` per report entry, in report
order (the report dict is modelled as an assoc list). -/
def parse (reg : Registry) (limits : List (String × RuleSpec))
    (report : List (String × (String × Option String))) : List TestResult :=
  report.map (fun e => parseEntry reg limits e.1 e.2.1 e.2.2)

/-! ### rtt_terminal.py: wire framing, line assembly, query correlation -/

/-- The host-to-device sentinel `EOM = b"\r\n.\r\n"` of rtt_terminal.py. -/
def EOM : List Char := ['\r', '\n', '.', '\r', '\n']

/-- `CHUNK = 1024`: the maximum bytes per `write()` call in `send`. -/
def CHUNK : Nat := 1024

/-- The payload `send` puts on the wire: the command followed by the
sentinel (`line.encode() + EOM`). -/
def frame (line : List Char) : List Char := line ++ EOM

/-- The chunking loop of `send` (`for i in range(0, len(payload), CHUNK)`),
written with an explicit iteration budget (`fuel ≥ payload length`
suffices) so every chunk is `payload[i : i + CHUNK]`. -/
def chunkGo : Nat → List Char → List (List Char)
  | _, [] => []
  | 0, _ :: _ => []
  | fuel + 1, c :: cs => (c :: cs).take CHUNK :: chunkGo fuel ((c :: cs).drop CHUNK)

/-- The sequence of chunks `send` writes for a payload. -/
def chunkWrites (payload : List Char) : List (List Char) :=
  chunkGo payload.length payload

/-- The newline-splitting loop of `_rtt_reader` (`while b"\n" in buf:
line, _, rest = buf.partition(b"\n")`), as a function from the accumulated
buffer to the published lines (in order) and the leftover buffer. -/
def splitNL : List Char → List (List Char) × List Char
  | [] => ([], [])
  | c :: cs =>
    if c = '\n' then ([] :: (splitNL cs).1, (splitNL cs).2)
    else
      match splitNL cs with
      | ([], buf) => ([], c :: buf)
      | (l :: ls, buf) => ((c :: l) :: ls, buf)

/-- Join a list of lines with newline separators (the inverse direction of
`splitNL`, used to state the framing round trip). -/
def joinNL : List (List Char) → List Char
  | [] => []
  | [l] => l
  | l :: m :: ls => l ++ '\n' :: joinNL (m :: ls)

/-- Drop one trailing `'\r'` (the carriage return the sentinel contributed
to the final payload line). -/
def chompCR (l : List Char) : List Char :=
  if l.getLast? = some '\r' then l.dropLast else l

/-- Remove the trailing `'\r'` from the last line of a list of lines. -/
def unCR : List (List Char) → List (List Char)
  | [] => []
  | [l] => [chompCR l]
  | l :: m :: ls => l :: unCR (m :: ls)

/-- Undo the sentinel in the assembled lines of a framed command: drop the
final `".\r"` line the sentinel produced, drop the `'\r'` it appended to
the payload's last line, and join the rest back with newlines. -/
def unframeLines (lines : List (List Char)) : List Char :=
  joinNL (unCR lines.dropLast)

/-- `AT_TERMINATORS = {"OK", "ERROR"}`. -/
def AT_TERMINATORS : List String := ["OK", "ERROR"]

/-- Whitespace stripped by Python `str.strip()` (ASCII range). -/
def pyWS (c : Char) : Bool :=
  c = ' ' || c = '\t' || c = '\n' || c = '\r' || c = '\x0b' || c = '\x0c'

/-- Python `str.strip()`: drop whitespace from both ends. -/
def pyStrip (s : String) : String :=
  String.mk (((s.data.dropWhile pyWS).reverse.dropWhile pyWS).reverse)

/-- The terminator predicate of `at_query`:
`lambda l: l.strip() in AT_TERMINATORS`. -/
def isATTerm (l : String) : Bool :=
  AT_TERMINATORS.contains (pyStrip l)

/-- Whether an already-stripped line is a terminal status token (the test
`ls in AT_TERMINATORS` inside the partitioning loop of `at_query`). -/
def isTermTok (s : String) : Bool := AT_TERMINATORS.contains s

/-- The collection loop of `query`: pop lines (in arrival order) until the
optional predicate matches a popped line (included in the result) or the
deadline passes with the queue empty — the end of the arrival list marks
the timeout. -/
def collectUntil (untl : Option (String → Bool)) : List String → List String
  | [] => []
  | l :: ls =>
    l :: (match untl with
          | some p => if p l then [] else collectUntil untl ls
          | none => collectUntil none ls)

/-- The leftover-drain loop of `query`
(`while not self._rx_q.empty(): self._rx_q.get_nowait()`). -/
def drainQueue : List String → List String
  | [] => []
  | _ :: q => drainQueue q

/-- The observable state a `query` call runs against: the lines already
buffered in the FIFO queue when it is called, and the lines the reader
thread delivers during its wait window, in arrival order. -/
structure TermState where
  rx_q : List String
  arrivals : List String

/-- `query` of rtt_terminal.py (lines 93-135): drain the leftover queue,
send the command (the send has no effect on the collected lines), then
collect from what remains buffered plus the new arrivals until the
predicate matches or the timeout (end of arrivals) hits. -/
def query (st : TermState) (untl : Option (String → Bool)) : List String :=
  collectUntil untl (drainQueue st.rx_q ++ st.arrivals)

/-- The status/payload partitioning loop of `at_query` (rtt_terminal.py
lines 151-158): the first stripped line in `AT_TERMINATORS` becomes the
status; every other line is appended, stripped, to the payload. -/
def envGo (status : Option String) (payload : List String) :
    List String → Option String × List String
  | [] => (status, payload)
  | l :: ls =>
    let s := pyStrip l
    if AT_TERMINATORS.contains s && status.isNone then envGo (some s) payload ls
    else envGo status (payload ++ [s]) ls

/-- The result dict of `at_query` built from the collected lines:
`{"reply": "\n".join(payload_lines), "status": status}`. -/
def at_query_env (lines : List String) : String × Option String :=
  let r := envGo none [] lines
  (String.intercalate "\n" r.2, r.1)

/-- `at_query` of rtt_terminal.py: query with the AT terminator predicate,
then partition the collected lines into reply and status. -/
def at_query (st : TermState) : String × Option String :=
  at_query_env (query st (some isATTerm))

/-- One `at_query` exchange inside a batch, against a device that answers
command `cmd` with the lines `respond cmd` (nothing stale is buffered:
each exchange's own drain step already discarded it, see
`query_discards_stale`). -/
def runAT (respond : String → List String) (cmd : String) :
    String × Option String :=
  at_query ⟨[], respond cmd⟩

/-- The externally visible actions of `batch_at_query`, in program order:
the `progress(cmd)` callback, the `at_query(cmd)` call, and the
`time.sleep(dwell)` settle delay. -/
inductive BatchEvent
  | progress (cmd : String)
  | query (cmd : String)
  | sleep
  deriving DecidableEq

/-- The loop of `batch_at_query` (rtt_terminal.py lines 171-177) with the
result dict threaded through: for each command, report progress, run the
query, store the envelope under the command, sleep the dwell time, and
continue — unconditionally. Returns the event trace and the final dict. -/
def batchGo (respond : String → List String) :
    List String → List (String × (String × Option String)) →
    List BatchEvent × List (String × (String × Option String))
  | [], acc => ([], acc)
  | cmd :: rest, acc =>
    let step := batchGo respond rest (dictInsert acc cmd (runAT respond cmd))
    ([.progress cmd, .query cmd, .sleep] ++ step.1, step.2)

/-- `batch_at_query` of rtt_terminal.py: run the commands sequentially
against the responding device, starting from an empty result dict. -/
def batch_at_query (respond : String → List String) (cmds : List String) :
    List BatchEvent × List (String × (String × Option String)) :=
  batchGo respond cmds []

/-- The slice of the built-in registry that the System-Voltage scenarios
exercise: `register_parser("AT%XVBAT", _parse_xvbat, "System Voltage")`
(at_parser.py line 271). -/
def xvbatRegistry : Registry :=
  ⟨[("AT%XVBAT", _parse_xvbat)], [("AT%XVBAT", "System Voltage")]⟩

/-- The limits of the System-Voltage scenario:
`{"System Voltage": {"min": 4900, "max": 5100}}`. -/
def xvbatLimits : List (String × RuleSpec) :=
  [("System Voltage", .one { min := some 4900, max := some 5100 })]

/-- A limits table keyed by a bare command (no registered display name),
declaring one always-passing equality rule; used to exhibit a command
whose rules pass while the parser's default verdict fails. -/
def c10Limits : List (String × RuleSpec) :=
  [("AT+X", .one { equals := some (.strS "x") })]

/-! ### Helper lemmas: association lists -/

/-- Unfolding `alookup` at a cons cell. -/
theorem alookup_cons {A : Type} (k a : String) (b : A) (rest : List (String × A)) :
    alookup k ((a, b) :: rest) = if a = k then some b else alookup k rest := rfl

/-- Overwriting an existing key makes it map to the new value. -/
theorem alookup_map_update {A : Type} (m : List (String × A)) (k : String) (v : A)
    (h : (alookup k m).isSome = true) :
    alookup k (m.map fun p => if p.1 = k then (k, v) else p) = some v := by
  induction m with
  | nil => simp [alookup] at h
  | cons p rest ih =>
    obtain ⟨a, b⟩ := p
    rw [List.map_cons]
    dsimp only
    by_cases hk : a = k
    · rw [if_pos hk, alookup_cons, if_pos rfl]
    · rw [if_neg hk, alookup_cons, if_neg hk]
      rw [alookup_cons, if_neg hk] at h
      exact ih h

/-- Overwriting key `k` leaves every other key's binding unchanged. -/
theorem alookup_map_update_ne {A : Type} (m : List (String × A)) (k k' : String) (v : A)
    (h : k' ≠ k) :
    alookup k' (m.map fun p => if p.1 = k then (k, v) else p) = alookup k' m := by
  induction m with
  | nil => rfl
  | cons p rest ih =>
    obtain ⟨a, b⟩ := p
    rw [List.map_cons]
    dsimp only
    by_cases hk : a = k
    · rw [if_pos hk, alookup_cons, if_neg (show ¬(k = k') from fun hkk => h hkk.symm),
        alookup_cons, if_neg (show ¬(a = k') from fun hak => h (hak.symm.trans hk)), ih]
    · rw [if_neg hk, alookup_cons, alookup_cons, ih]

/-- Appending a fresh binding makes its key map to it. -/
theorem alookup_append_right {A : Type} (m : List (String × A)) (k : String) (v : A)
    (h : alookup k m = none) : alookup k (m ++ [(k, v)]) = some v := by
  induction m with
  | nil => simp [alookup]
  | cons p rest ih =>
    obtain ⟨a, b⟩ := p
    rw [List.cons_append, alookup_cons]
    rw [alookup_cons] at h
    by_cases hk : a = k
    · rw [if_pos hk] at h; exact absurd h (by simp)
    · rw [if_neg hk] at h ⊢
      exact ih h

/-- Appending a binding for `k` leaves every other key unchanged. -/
theorem alookup_append_single_ne {A : Type} (m : List (String × A)) (k k' : String) (v : A)
    (h : k' ≠ k) : alookup k' (m ++ [(k, v)]) = alookup k' m := by
  induction m with
  | nil =>
    rw [List.nil_append, alookup_cons, if_neg (show ¬(k = k') from fun hkk => h hkk.symm)]
  | cons p rest ih =>
    obtain ⟨a, b⟩ := p
    rw [List.cons_append, alookup_cons, alookup_cons, ih]

/-- After `d[k] = v`, looking up `k` yields `v`. -/
theorem alookup_dictInsert_self {A : Type} (m : List (String × A)) (k : String) (v : A) :
    alookup k (dictInsert m k v) = some v := by
  unfold dictInsert
  by_cases h : (alookup k m).isSome
  · rw [if_pos h]; exact alookup_map_update m k v h
  · rw [if_neg h]
    refine alookup_append_right m k v ?_
    rcases hm : alookup k m with _ | w
    · rfl
    · simp [hm] at h

/-- After `d[k] = v`, every other key's binding is unchanged. -/
theorem alookup_dictInsert_ne {A : Type} (m : List (String × A)) (k k' : String) (v : A)
    (h : k' ≠ k) : alookup k' (dictInsert m k v) = alookup k' m := by
  unfold dictInsert
  split
  · exact alookup_map_update_ne m k k' v h
  · exact alookup_append_single_ne m k k' v h

/-- `d[k] = v` grows the dict by one entry exactly when `k` is fresh. -/
theorem length_dictInsert {A : Type} (m : List (String × A)) (k : String) (v : A) :
    (dictInsert m k v).length =
      if (alookup k m).isSome then m.length else m.length + 1 := by
  unfold dictInsert
  split <;> simp

/-! ### Helper lemmas: rule engine -/

/-- Every failing branch of the inner `ok` closure appends a reason. -/
theorem ruleOk_reason_of_fail (val : Value) (r : Rule) (h : (ruleOk val r).1 = false) :
    (ruleOk val r).2.isSome = true := by
  rcases r with ⟨f, eqq, alw, lo, hi⟩
  simp only [ruleOk] at h ⊢
  split at h <;> (try split at h) <;> (try split at h) <;> (try split at h) <;>
    (try simp_all)
  all_goals
    rw [if_neg]
    · simp
    · rintro ⟨x, hx, hpx⟩
      simp_all

/-- The overall verdict of the rule loop is the conjunction of the
individual rule verdicts (lazy evaluation does not change the verdict,
because a failing rule forces the conjunction false either way). -/
theorem applyRulesGo_pass_iff (val : Value) (rules : List Rule) :
    (applyRulesGo val rules).1 = true ↔ ∀ x ∈ rules, (ruleOk val x).1 = true := by
  induction rules with
  | nil => simp [applyRulesGo]
  | cons r rs ih =>
    rcases h : ruleOk val r with ⟨b, reason⟩
    cases b <;> simp [applyRulesGo, h, ih]

/-- When every rule passes, no reason was appended. -/
theorem applyRulesGo_pass_reasons (val : Value) (rules : List Rule)
    (h : (applyRulesGo val rules).1 = true) : (applyRulesGo val rules).2 = [] := by
  induction rules with
  | nil => simp [applyRulesGo]
  | cons r rs ih =>
    rcases hr : ruleOk val r with ⟨b, reason⟩
    cases b
    · simp [applyRulesGo, hr] at h
    · simp [applyRulesGo, hr] at h ⊢
      exact ih h

/-- A passing run of rules in front of the list does not affect the loop's
result (passing branches append nothing). -/
theorem applyRulesGo_append_pass (val : Value) (pre rest : List Rule)
    (h : ∀ x ∈ pre, (ruleOk val x).1 = true) :
    applyRulesGo val (pre ++ rest) = applyRulesGo val rest := by
  induction pre with
  | nil => simp
  | cons r rs ih =>
    rcases hr : ruleOk val r with ⟨b, reason⟩
    have hb : b = true := by have := h r (by simp); rwa [hr] at this
    subst hb
    simp only [List.cons_append, applyRulesGo, hr]
    exact ih (fun x hx => h x (by simp [hx]))

/-! ### Claim C2 -/

/-- C2: for every value and rule list, `_apply_rules` passes iff every
individual rule independently evaluates true on the value; and whenever
the first failing rule is `r` (in particular when `r` is the only failing
rule), the result is fail with a non-empty reasons list that is exactly
`r`'s explanation. -/
theorem apply_rules_conjunction (val : Value) (rules pre post : List Rule) (r : Rule) :
    ((_apply_rules val rules).1 = true ↔ ∀ x ∈ rules, (ruleOk val x).1 = true) ∧
    (rules = pre ++ r :: post →
      (∀ x ∈ pre, (ruleOk val x).1 = true) →
      (ruleOk val r).1 = false →
      (_apply_rules val rules).1 = false ∧
      (_apply_rules val rules).2 ≠ [] ∧
      (_apply_rules val rules).2 = (ruleOk val r).2.toList) := by
  constructor
  · exact applyRulesGo_pass_iff val rules
  · rintro rfl hpre hr
    have hsplit : applyRulesGo val (pre ++ r :: post) = applyRulesGo val (r :: post) :=
      applyRulesGo_append_pass val pre _ hpre
    rcases hrr : ruleOk val r with ⟨b, reason⟩
    have hb : b = false := by rw [hrr] at hr; exact hr
    subst hb
    have hsome := ruleOk_reason_of_fail val r hr
    rw [hrr] at hsome
    rcases reason with _ | s
    · simp at hsome
    · refine ⟨?_, ?_, ?_⟩ <;> simp [_apply_rules, hsplit, applyRulesGo, hrr]

/-- C2 witness: a single under-range rule on value 5 fails with exactly
its own explanation. -/
theorem apply_rules_conjunction_witness :
    (_apply_rules (.intV 5) [{ min := some 10 }]).1 = false ∧
    (_apply_rules (.intV 5) [{ min := some 10 }]).2 ≠ [] ∧
    (_apply_rules (.intV 5) [{ min := some 10 }]).2 =
      (ruleOk (.intV 5) { min := some 10 }).2.toList :=
  (apply_rules_conjunction (.intV 5) [{ min := some 10 }] [] [] { min := some 10 }).2
    rfl (by simp) (by decide)

/-! ### Claim C8 -/

/-- C8: a rule carrying a (non-empty) field selector, evaluated on a
record-typed value lacking that field, fails without raising — `ruleOk`
and `_apply_rules` are total functions — and its reason names the absent
field (`"<field> missing"`). -/
theorem missing_field_rule (f : String) (hf : f ≠ "") (fs : List (String × Scalar))
    (hmiss : alookup f fs = none) (rule : Rule) (hfld : rule.field = some f) :
    ruleOk (.dictV fs) rule = (false, some (f ++ " missing")) ∧
    _apply_rules (.dictV fs) [rule] = (false, [f ++ " missing"]) := by
  have h1 : ruleOk (.dictV fs) rule = (false, some (f ++ " missing")) := by
    simp only [ruleOk, hfld, effField, if_neg hf, hmiss]
    simp
  exact ⟨h1, by simp [_apply_rules, applyRulesGo, h1]⟩

/-- C8 witness: rule `{field: "signal_dbm", min: -95}` on a record holding
only `rsrp_dbm` fails with the reason `"signal_dbm missing"`. -/
theorem missing_field_rule_witness :
    ruleOk (.dictV [("rsrp_dbm", .intS (-120))])
        { field := some "signal_dbm", min := some (-95) } =
      (false, some ("signal_dbm" ++ " missing")) ∧
    _apply_rules (.dictV [("rsrp_dbm", .intS (-120))])
        [{ field := some "signal_dbm", min := some (-95) }] =
      (false, ["signal_dbm" ++ " missing"]) :=
  missing_field_rule "signal_dbm" (by decide) _ (by decide) _ rfl

/-! ### Claim C5 -/

/-- C5: `register_parser` raises the descriptive duplicate-registration
`ValueError` when the command already has a parser and `override` is
false — the raise precedes any store, so no registry state results from
the call (the `Except.error` carries no updated registry) — while with
`override` true or a fresh identifier it stores the parser function and
display name under the command. -/
theorem register_parser_spec (reg : Registry) (cmd : String) (p : PyParser)
    (nm : String) (override : Bool) :
    (override = false → (alookup cmd reg.parsers).isSome = true →
      registerParser reg cmd p nm override =
        .error ("Parser for " ++ cmd ++ " already exists- use override=True")) ∧
    (override = true ∨ (alookup cmd reg.parsers).isSome = false →
      registerParser reg cmd p nm override =
        .ok ⟨dictInsert reg.parsers cmd p, dictInsert reg.names cmd nm⟩ ∧
      alookup cmd (dictInsert reg.parsers cmd p) = some p ∧
      alookup cmd (dictInsert reg.names cmd nm) = some nm) := by
  constructor
  · rintro rfl hsome
    simp [registerParser, hsome]
  · intro hok
    refine ⟨?_, alookup_dictInsert_self _ _ _, alookup_dictInsert_self _ _ _⟩
    rcases hok with rfl | hnone
    · simp [registerParser]
    · simp [registerParser, hnone]

/-- C5 witness: registering a fresh command on an empty registry succeeds
and stores the parser and name. -/
theorem register_parser_spec_witness :
    ((alookup "AT+X" (Registry.mk [] []).parsers).isSome = false) ∧
    (registerParser ⟨[], []⟩ "AT+X" _pass_if_ok "X test" false =
        .ok ⟨dictInsert [] "AT+X" _pass_if_ok, dictInsert [] "AT+X" "X test"⟩ ∧
      alookup "AT+X" (dictInsert [] "AT+X" _pass_if_ok) = some _pass_if_ok ∧
      alookup "AT+X" (dictInsert [] "AT+X" "X test") = some "X test") :=
  ⟨rfl, (register_parser_spec ⟨[], []⟩ "AT+X" _pass_if_ok "X test" false).2 (Or.inr rfl)⟩

/-! ### Claim C10 -/

/-- C10: when a command has at least one declared rule, `parse` reports
`passed` as the conjunction of the rule verdict and the parser's default
verdict, so a result whose declared rules all pass is still reported
failed — with an empty reasons list — whenever the default verdict is
false. -/
theorem parse_conjoins_default (reg : Registry) (limits : List (String × RuleSpec))
    (cmd reply : String) (status : Option String)
    (h : rulesFor limits (registryName reg cmd) ≠ []) :
    (parseEntry reg limits cmd reply status).passed =
      ((_apply_rules (registryParser reg cmd reply status).1.value
          (rulesFor limits (registryName reg cmd))).1 &&
        (registryParser reg cmd reply status).2) ∧
    ((_apply_rules (registryParser reg cmd reply status).1.value
        (rulesFor limits (registryName reg cmd))).1 = true →
      (parseEntry reg limits cmd reply status).reasons = []) := by
  have hne : (rulesFor limits (registryName reg cmd)).isEmpty = false := by
    rcases hr : rulesFor limits (registryName reg cmd) with _ | _ <;> simp_all
  constructor
  · simp [parseEntry, hne]
  · intro hp
    rw [_apply_rules] at hp
    simp [parseEntry, hne, _apply_rules, applyRulesGo_pass_reasons _ _ hp]

/-- C10 witness: a fallback-parsed command whose one equality rule passes
but whose status is `"ERROR"` (default verdict false). -/
theorem parse_conjoins_default_witness :
    rulesFor c10Limits (registryName ⟨[], []⟩ "AT+X") ≠ [] ∧
    ((parseEntry ⟨[], []⟩ c10Limits "AT+X" "x" (some "ERROR")).passed =
      ((_apply_rules (registryParser ⟨[], []⟩ "AT+X" "x" (some "ERROR")).1.value
          (rulesFor c10Limits (registryName ⟨[], []⟩ "AT+X"))).1 &&
        (registryParser ⟨[], []⟩ "AT+X" "x" (some "ERROR")).2) ∧
      ((_apply_rules (registryParser ⟨[], []⟩ "AT+X" "x" (some "ERROR")).1.value
          (rulesFor c10Limits (registryName ⟨[], []⟩ "AT+X"))).1 = true →
        (parseEntry ⟨[], []⟩ c10Limits "AT+X" "x" (some "ERROR")).reasons = [])) :=
  ⟨by decide, parse_conjoins_default ⟨[], []⟩ c10Limits "AT+X" "x" (some "ERROR") (by decide)⟩

/-! ### Claim C6 -/

/-- C6 (amended): for a command with no registered parser, the lookup in
`parse` falls back to `_pass_if_ok`, which passes iff the status is
`"OK"`, `None`, or the empty string (`status or "OK"` treats the falsy
statuses as `"OK"`), takes the raw reply as the value, and takes the raw
reply as the description unless the reply is empty, in which case the
description is `"(no reply)"`. -/
theorem fallback_parser_spec (reg : Registry) (cmd reply : String)
    (status : Option String) (h : alookup cmd reg.parsers = none) :
    registryParser reg cmd = _pass_if_ok ∧
    ((_pass_if_ok reply status).2 = true ↔
      (status = none ∨ status = some "" ∨ status = some "OK")) ∧
    (_pass_if_ok reply status).1.value = .strV reply ∧
    (_pass_if_ok reply status).1.description =
      (if reply = "" then "(no reply)" else reply) := by
  refine ⟨by simp [registryParser, h], ?_, rfl, rfl⟩
  rcases status with _ | s
  · simp [_pass_if_ok, statusOr]
  · by_cases hs : s = ""
    · subst hs; simp [_pass_if_ok, statusOr]
    · simp [_pass_if_ok, statusOr, hs]

/-- C6 witness: an unregistered command with a non-empty reply and a
timed-out (`None`) status. -/
theorem fallback_parser_spec_witness :
    registryParser ⟨[], []⟩ "AT+UNKNOWN" = _pass_if_ok ∧
    ((_pass_if_ok "x" none).2 = true ↔
      ((none : Option String) = none ∨ (none : Option String) = some "" ∨
        (none : Option String) = some "OK")) ∧
    (_pass_if_ok "x" none).1.value = .strV "x" ∧
    (_pass_if_ok "x" none).1.description =
      (if ("x" : String) = "" then "(no reply)" else "x") :=
  fallback_parser_spec ⟨[], []⟩ "AT+UNKNOWN" "x" none rfl

/-- C6 counterexample: the fallback parser passes on a `None` status
(which is not `"OK"`), and an empty reply's description is `"(no reply)"`
rather than the raw reply — both contradicting the claim's "passing iff
status is OK, raw reply as both value and description". -/
theorem pass_if_ok_counterexample :
    (_pass_if_ok "x" none).2 = true ∧ (none : Option String) ≠ some "OK" ∧
    (_pass_if_ok "" (some "OK")).1.value = .strV "" ∧
    (_pass_if_ok "" (some "OK")).1.description = "(no reply)" ∧ "(no reply)" ≠ "" := by
  refine ⟨rfl, by simp, rfl, rfl, by decide⟩

/-! ### Claim C7 -/

/-- C7 counterexample: with the System-Voltage parser and rule
`{min: 4900, max: 5100}`, a reply of bare `"5046"` (no `%XVBAT:` label)
is unparseable, so `passed` is false — not true as claimed — and the
reply `"4000"` does not produce the claimed reason
`"value 4000 < [4900-5100]"`. -/
theorem xvbat_scenario_counterexample :
    (parseEntry xvbatRegistry xvbatLimits "AT%XVBAT" "5046" (some "OK")).passed = false ∧
    (parseEntry xvbatRegistry xvbatLimits "AT%XVBAT" "4000" (some "OK")).reasons ≠
      ["value 4000 < [4900-5100]"] := by
  constructor <;> decide

/-- C7 (amended): with the System-Voltage parser and rule
`{min: 4900, max: 5100}`, the labelled reply `"%XVBAT: 5046"` with status
`"OK"` yields `passed = true`, and `"%XVBAT: 4000"` yields
`passed = false` with reasons exactly
`["value 4000 outside [4900–5100]"]`. -/
theorem xvbat_scenario_amended :
    (parseEntry xvbatRegistry xvbatLimits "AT%XVBAT" "%XVBAT: 5046" (some "OK")).passed
      = true ∧
    (parseEntry xvbatRegistry xvbatLimits "AT%XVBAT" "%XVBAT: 4000" (some "OK")).passed
      = false ∧
    (parseEntry xvbatRegistry xvbatLimits "AT%XVBAT" "%XVBAT: 4000" (some "OK")).reasons
      = ["value 4000 outside [4900–5100]"] := by
  refine ⟨by decide, by decide, by decide⟩

/-! ### Helper lemmas: at_query partitioning -/

/-- Once a status has been captured, every further line is appended,
stripped, to the payload. -/
theorem envGo_some (st : String) (payload ls : List String) :
    envGo (some st) payload ls = (some st, payload ++ ls.map pyStrip) := by
  induction ls generalizing payload with
  | nil => simp [envGo]
  | cons l ls ih =>
    simp only [envGo, Option.isNone_some, Bool.and_false, Bool.false_eq_true, if_false]
    rw [ih]
    simp

/-- The partitioning loop, before a status has been captured: the status
becomes the first stripped terminal token, and the payload collects the
stripped forms of all other lines. -/
theorem envGo_none (payload ls : List String) :
    envGo none payload ls =
      ((ls.map pyStrip).find? isTermTok, payload ++ (ls.map pyStrip).eraseP isTermTok) := by
  induction ls generalizing payload with
  | nil => simp [envGo]
  | cons l ls ih =>
    rw [List.map_cons]
    simp only [envGo, Option.isNone_none, Bool.and_true]
    by_cases hc : isTermTok (pyStrip l) = true
    · rw [if_pos (show AT_TERMINATORS.contains (pyStrip l) = true from hc), envGo_some,
        List.find?_cons_of_pos _ hc, List.eraseP_cons_of_pos hc]
    · rw [if_neg (show ¬AT_TERMINATORS.contains (pyStrip l) = true from hc), ih,
        List.find?_cons_of_neg _ hc, List.eraseP_cons_of_neg hc]
      simp

/-! ### Claim C1 -/

/-- C1 (amended): `at_query` partitions the collected lines into the first
line whose stripped text is `"OK"` or `"ERROR"` — captured, stripped, as
the status — and the stripped forms of all other lines joined with
newlines as the reply; on a device replying `"5046"` then `"OK"` this
gives reply `"5046"` and status `"OK"`, and when no terminal line was
collected before the timeout the status is `None` and the reply is the
(stripped) collected lines joined. -/
theorem at_query_partitions (lines : List String) :
    (at_query_env lines =
      (String.intercalate "\n" ((lines.map pyStrip).eraseP isTermTok),
       (lines.map pyStrip).find? isTermTok)) ∧
    at_query_env ["5046", "OK"] = ("5046", some "OK") ∧
    ((lines.map pyStrip).find? isTermTok = none →
      at_query_env lines = (String.intercalate "\n" (lines.map pyStrip), none)) := by
  have hmain : at_query_env lines =
      (String.intercalate "\n" ((lines.map pyStrip).eraseP isTermTok),
       (lines.map pyStrip).find? isTermTok) := by
    rw [at_query_env, envGo_none]
    rfl
  refine ⟨hmain, by decide, ?_⟩
  intro h
  have hall := List.find?_eq_none.mp h
  have herase : (lines.map pyStrip).eraseP isTermTok = lines.map pyStrip :=
    List.eraseP_of_forall_not (fun a ha => hall a ha)
  rw [hmain, herase, h]

/-- C1 witness: two non-terminal lines yield a `None` status with both
lines kept in the reply. -/
theorem at_query_partitions_witness :
    ((["busy", "done"].map pyStrip).find? isTermTok = none) ∧
    at_query_env ["busy", "done"] =
      (String.intercalate "\n" (["busy", "done"].map pyStrip), none) :=
  ⟨by decide, (at_query_partitions ["busy", "done"]).2.2 (by decide)⟩

/-- C1 counterexample: the collected line `"  5046  "` is stripped before
joining, so the reply is `"5046"` and not the original line, refuting the
claim's "all other lines joined as reply". -/
theorem at_query_counterexample :
    (at_query_env ["  5046  ", "OK"]).1 = "5046" ∧ "5046" ≠ "  5046  " ∧
    (at_query_env ["  5046  ", "OK"]).2 = some "OK" := by
  refine ⟨by decide, by decide, by decide⟩

/-! ### Claim C3 -/

/-- The drain loop leaves the FIFO queue empty. -/
theorem drainQueue_eq_nil (q : List String) : drainQueue q = [] := by
  induction q with
  | nil => rfl
  | cons l q ih => simpa [drainQueue] using ih

/-- Every line the collection loop returns came from its input stream. -/
theorem mem_collectUntil (untl : Option (String → Bool)) (ls : List String) (l : String)
    (h : l ∈ collectUntil untl ls) : l ∈ ls := by
  induction ls with
  | nil => simp [collectUntil] at h
  | cons x xs ih =>
    rcases untl with _ | p
    · simp only [collectUntil] at h
      rcases List.mem_cons.mp h with rfl | h2
      · exact List.mem_cons_self _ _
      · exact List.mem_cons_of_mem _ (ih h2)
    · simp only [collectUntil] at h
      rcases List.mem_cons.mp h with rfl | h2
      · exact List.mem_cons_self _ _
      · by_cases hp : p x = true
        · rw [if_pos hp] at h2
          simp at h2
        · rw [if_neg hp] at h2
          exact List.mem_cons_of_mem _ (ih h2)

/-- C3: `query` first drains and discards everything buffered in the FIFO
queue from a prior exchange, so its result is the same as on a state with
an empty queue, and every line it returns was delivered after its own
drain step (it is one of the fresh arrivals). -/
theorem query_discards_stale (st : TermState) (untl : Option (String → Bool)) :
    query st untl = query ⟨[], st.arrivals⟩ untl ∧
    ∀ l, l ∈ query st untl → l ∈ st.arrivals := by
  have hd : drainQueue st.rx_q = [] := drainQueue_eq_nil _
  constructor
  · simp [query, hd, drainQueue]
  · intro l hl
    rw [query, hd, List.nil_append] at hl
    exact mem_collectUntil _ _ _ hl

/-- C3 witness: a query against a state with a stale buffered line returns
only fresh arrivals. -/
theorem query_discards_stale_witness :
    query ⟨["stale"], ["fresh", "OK"]⟩ (some isATTerm) =
      query ⟨[], ["fresh", "OK"]⟩ (some isATTerm) ∧
    ("fresh" : String) ∈ (["fresh", "OK"] : List String) :=
  ⟨(query_discards_stale ⟨["stale"], ["fresh", "OK"]⟩ (some isATTerm)).1,
   (query_discards_stale ⟨["stale"], ["fresh", "OK"]⟩ (some isATTerm)).2 "fresh" (by decide)⟩

/-! ### Helper lemmas: batch executor -/

/-- The event trace of the batch loop: progress, query, sleep, for each
command in input order, independent of the accumulated dict. -/
theorem batchGo_trace (respond : String → List String) (cmds : List String)
    (acc : List (String × (String × Option String))) :
    (batchGo respond cmds acc).1 =
      (cmds.map (fun c =>
        [BatchEvent.progress c, BatchEvent.query c, BatchEvent.sleep])).flatten := by
  induction cmds generalizing acc with
  | nil => simp [batchGo]
  | cons c rest ih => simp [batchGo, ih]

/-- Commands not in the remaining batch leave their dict entry alone. -/
theorem batchGo_lookup_not_mem (respond : String → List String) (cmds : List String)
    (acc : List (String × (String × Option String))) (k : String) (h : k ∉ cmds) :
    alookup k (batchGo respond cmds acc).2 = alookup k acc := by
  induction cmds generalizing acc with
  | nil => simp [batchGo]
  | cons c rest ih =>
    simp only [batchGo]
    rw [ih _ (fun hk => h (List.mem_cons_of_mem _ hk)),
      alookup_dictInsert_ne _ _ _ _
        (fun hkc => h (by rw [hkc]; exact List.mem_cons_self _ _))]

/-- Every command of the batch ends up mapped to its own envelope. -/
theorem batchGo_lookup_mem (respond : String → List String) (cmds : List String)
    (acc : List (String × (String × Option String))) (k : String) (h : k ∈ cmds) :
    alookup k (batchGo respond cmds acc).2 = some (runAT respond k) := by
  induction cmds generalizing acc with
  | nil => simp at h
  | cons c rest ih =>
    simp only [batchGo]
    by_cases hr : k ∈ rest
    · exact ih _ hr
    · have hkc : k = c := by
        rcases List.mem_cons.mp h with rfl | h2
        · rfl
        · exact absurd h2 hr
      subst hkc
      rw [batchGo_lookup_not_mem respond rest _ k hr, alookup_dictInsert_self]

/-- The dict grows by at most one entry per command. -/
theorem batchGo_length_le (respond : String → List String) (cmds : List String)
    (acc : List (String × (String × Option String))) :
    (batchGo respond cmds acc).2.length ≤ acc.length + cmds.length := by
  induction cmds generalizing acc with
  | nil => simp [batchGo]
  | cons c rest ih =>
    simp only [batchGo]
    have h1 := ih (dictInsert acc c (runAT respond c))
    have h2 : (dictInsert acc c (runAT respond c)).length ≤ acc.length + 1 := by
      rw [length_dictInsert]
      split <;> omega
    simp only [List.length_cons]
    omega

/-- With no repeated identifiers, the dict grows by exactly one entry per
command. -/
theorem batchGo_length_nodup (respond : String → List String) (cmds : List String)
    (acc : List (String × (String × Option String)))
    (hnd : cmds.Nodup) (hfresh : ∀ c ∈ cmds, alookup c acc = none) :
    (batchGo respond cmds acc).2.length = acc.length + cmds.length := by
  induction cmds generalizing acc with
  | nil => simp [batchGo]
  | cons c rest ih =>
    simp only [batchGo]
    have hnone : alookup c acc = none := hfresh c (List.mem_cons_self _ _)
    have hlen : (dictInsert acc c (runAT respond c)).length = acc.length + 1 := by
      rw [length_dictInsert, if_neg (by simp [hnone])]
    have hfresh' : ∀ x ∈ rest, alookup x (dictInsert acc c (runAT respond c)) = none := by
      intro x hx
      rw [alookup_dictInsert_ne _ _ _ _
        (fun hxc => (List.nodup_cons.mp hnd).1 (by rw [← hxc]; exact hx))]
      exact hfresh x (List.mem_cons_of_mem _ hx)
    rw [ih _ (List.nodup_cons.mp hnd).2 hfresh', hlen]
    simp only [List.length_cons]
    omega

/-! ### Claim C4 -/

/-- C4: `batch_at_query` runs the commands strictly in input order — the
event trace is exactly progress callback, `at_query` call, dwell sleep,
per command, with no early exit regardless of any command's outcome (the
embedded exchange is total, so failed or timed-out replies cannot abort
the loop) — and the returned dict associates every command with its own
envelope, with exactly N keys for N distinct commands and never more than
N keys. -/
theorem batch_at_query_spec (respond : String → List String) (cmds : List String) :
    (batch_at_query respond cmds).1 =
      (cmds.map (fun c =>
        [BatchEvent.progress c, BatchEvent.query c, BatchEvent.sleep])).flatten ∧
    (∀ c ∈ cmds, alookup c (batch_at_query respond cmds).2 = some (runAT respond c)) ∧
    (batch_at_query respond cmds).2.length ≤ cmds.length ∧
    (cmds.Nodup → (batch_at_query respond cmds).2.length = cmds.length) := by
  refine ⟨batchGo_trace respond cmds [],
    fun c hc => batchGo_lookup_mem respond cmds [] c hc, ?_, fun hnd => ?_⟩
  · simpa using batchGo_length_le respond cmds []
  · simpa using batchGo_length_nodup respond cmds [] hnd (fun c hc => rfl)

/-- C4 witness: a two-command batch against a device answering
`"5046"`/`"OK"` maps each command and has exactly two keys. -/
theorem batch_at_query_spec_witness :
    ("A" : String) ∈ (["A", "B"] : List String) ∧
    alookup "A" (batch_at_query (fun _ => ["5046", "OK"]) ["A", "B"]).2 =
      some (runAT (fun _ => ["5046", "OK"]) "A") ∧
    (["A", "B"] : List String).Nodup ∧
    (batch_at_query (fun _ => ["5046", "OK"]) ["A", "B"]).2.length = 2 :=
  ⟨by decide, (batch_at_query_spec (fun _ => ["5046", "OK"]) ["A", "B"]).2.1 "A" (by decide),
   by decide, (batch_at_query_spec (fun _ => ["5046", "OK"]) ["A", "B"]).2.2.2 (by decide)⟩

/-! ### Helper lemmas: framing round trip -/

/-- The chunks written by `send` reassemble to the framed payload. -/
theorem chunkGo_flatten (fuel : Nat) (l : List Char) (h : l.length ≤ fuel) :
    (chunkGo fuel l).flatten = l := by
  induction fuel generalizing l with
  | zero =>
    cases l with
    | nil => simp [chunkGo]
    | cons c cs => simp at h
  | succ n ih =>
    cases l with
    | nil => simp [chunkGo]
    | cons c cs =>
      rw [chunkGo, List.flatten_cons, ih]
      · exact List.take_append_drop _ _
      · rw [List.length_drop]
        have hC : CHUNK = 1024 := rfl
        simp only [List.length_cons] at h ⊢
        omega

/-- Joining all of `send`'s chunk writes recovers the payload. -/
theorem chunkWrites_flatten (payload : List Char) :
    (chunkWrites payload).flatten = payload :=
  chunkGo_flatten _ _ le_rfl

/-- Every chunk `send` writes is at most `CHUNK` bytes. -/
theorem chunkGo_size (fuel : Nat) (l : List Char) :
    ∀ ch ∈ chunkGo fuel l, ch.length ≤ CHUNK := by
  induction fuel generalizing l with
  | zero =>
    cases l with
    | nil => simp [chunkGo]
    | cons c cs => simp [chunkGo]
  | succ n ih =>
    cases l with
    | nil => simp [chunkGo]
    | cons c cs =>
      intro ch hch
      rw [chunkGo] at hch
      rcases List.mem_cons.mp hch with rfl | h2
      · exact List.length_take_le _ _
      · exact ih _ ch h2

/-- Unfolding `joinNL` at a cons whose tail is non-empty. -/
theorem joinNL_cons_of_ne_nil (l : List Char) (ls : List (List Char)) (h : ls ≠ []) :
    joinNL (l :: ls) = l ++ '\n' :: joinNL ls := by
  cases ls with
  | nil => exact absurd rfl h
  | cons m ms => rfl

/-- `unCR` only touches the last line. -/
theorem unCR_concat (ls : List (List Char)) (l : List Char) :
    unCR (ls ++ [l]) = ls ++ [chompCR l] := by
  induction ls with
  | nil => rfl
  | cons a as ih =>
    cases as with
    | nil => rfl
    | cons b bs =>
      calc unCR ((a :: b :: bs) ++ [l]) = a :: unCR ((b :: bs) ++ [l]) := rfl
        _ = a :: ((b :: bs) ++ [chompCR l]) := by rw [ih]
        _ = (a :: b :: bs) ++ [chompCR l] := rfl

/-- Dropping the trailing carriage return undoes appending one. -/
theorem chompCR_concat (b : List Char) : chompCR (b ++ ['\r']) = b := by
  simp [chompCR, List.getLast?_concat, List.dropLast_concat]

/-- One unfolding step of the newline-splitting loop. -/
theorem splitNL_cons (c : Char) (cs : List Char) :
    splitNL (c :: cs) =
      if c = '\n' then ([] :: (splitNL cs).1, (splitNL cs).2)
      else
        match splitNL cs with
        | ([], buf) => ([], c :: buf)
        | (l :: ls, buf) => ((c :: l) :: ls, buf) := rfl

/-- Assembling a sentinel-framed payload yields the payload's own lines,
its last line extended by the sentinel's `'\r'`, a final `".\r"` line, and
an empty leftover buffer. -/
theorem splitNL_frame (s : List Char) :
    splitNL (s ++ EOM) =
      ((splitNL s).1 ++ [(splitNL s).2 ++ ['\r'], ['.', '\r']], []) := by
  induction s with
  | nil => rfl
  | cons c cs ih =>
    rcases hcs : splitNL cs with ⟨L, B⟩
    rw [hcs] at ih
    dsimp only at ih
    by_cases hc : c = '\n'
    · subst hc
      rw [List.cons_append, splitNL_cons, if_pos rfl, ih,
          splitNL_cons, if_pos rfl, hcs]
      rfl
    · rw [List.cons_append, splitNL_cons, if_neg hc, ih,
          splitNL_cons, if_neg hc, hcs]
      rcases L with _ | ⟨m, ms⟩
      · rfl
      · rfl

/-- Rejoining the split lines and the leftover buffer with newlines
recovers the input byte stream. -/
theorem splitNL_inv (l : List Char) :
    joinNL ((splitNL l).1 ++ [(splitNL l).2]) = l := by
  induction l with
  | nil => rfl
  | cons c cs ih =>
    rcases hcs : splitNL cs with ⟨L, B⟩
    rw [hcs] at ih
    dsimp only at ih
    by_cases hc : c = '\n'
    · subst hc
      rw [splitNL_cons, if_pos rfl, hcs]
      dsimp only
      rw [List.cons_append, joinNL_cons_of_ne_nil _ _ (by simp), ih]
      rfl
    · rw [splitNL_cons, if_neg hc, hcs]
      rcases L with _ | ⟨m, ms⟩
      · dsimp only
        have hB : B = cs := by simpa [joinNL] using ih
        rw [show joinNL ([] ++ [c :: B]) = c :: B from rfl, hB]
      · dsimp only
        rw [List.cons_append, joinNL_cons_of_ne_nil _ _ (by simp)]
        rw [List.cons_append, joinNL_cons_of_ne_nil _ _ (by simp)] at ih
        rw [← ih]
        rfl

/-! ### Claim C9 -/

/-- C9: for every command string, framing it (payload plus the sentinel
`"\r\n.\r\n"`, written in chunks of at most 1024 bytes) and feeding the
written bytes through the line assembler's newline-splitting loop leaves
an empty buffer and a line list from which removing the sentinel residue
(the final `".\r"` line and the `'\r'` appended to the last payload line)
reconstructs exactly the original string. -/
theorem frame_roundtrip (s : List Char) :
    (splitNL (chunkWrites (frame s)).flatten).2 = [] ∧
    unframeLines (splitNL (chunkWrites (frame s)).flatten).1 = s ∧
    ∀ ch ∈ chunkWrites (frame s), ch.length ≤ CHUNK := by
  have hj : (chunkWrites (frame s)).flatten = frame s := chunkWrites_flatten _
  rw [hj, frame, splitNL_frame]
  refine ⟨rfl, ?_, by rw [← frame]; exact chunkGo_size _ _⟩
  rw [unframeLines]
  have hdl : ((splitNL s).1 ++ [(splitNL s).2 ++ ['\r'], ['.', '\r']]).dropLast
      = (splitNL s).1 ++ [(splitNL s).2 ++ ['\r']] := by
    rw [show (splitNL s).1 ++ [(splitNL s).2 ++ ['\r'], ['.', '\r']]
        = ((splitNL s).1 ++ [(splitNL s).2 ++ ['\r']]) ++ [['.', '\r']] by simp,
      List.dropLast_concat]
  rw [hdl, unCR_concat, chompCR_concat, splitNL_inv]

/-- C9 witness: the round trip evaluated on the command `"AT+CGMI"`,
whose single framed write is within the chunk bound. -/
theorem frame_roundtrip_witness :
    unframeLines (splitNL (chunkWrites (frame "AT+CGMI".data)).flatten).1
      = "AT+CGMI".data ∧
    frame "AT+CGMI".data ∈ chunkWrites (frame "AT+CGMI".data) ∧
    (frame "AT+CGMI".data).length ≤ CHUNK :=
  ⟨(frame_roundtrip "AT+CGMI".data).2.1,
   by decide,
   (frame_roundtrip "AT+CGMI".data).2.2 (frame "AT+CGMI".data) (by decide)⟩

end NrfModem
